import Mathlib

/-!
Verification of the SQS producer/consumer pair of the `aws-s3-service`
repository (`app/services/sqs_service.py` and the shutdown glue in
`app/main.py`), as a shallow embedding in Lean 4.

The embedding models the external world (the boto3 SQS client, the JSON
codec of the standard library, the stop event) as explicit parameters:

* a receive call either raises (transport error) or returns a batch of
  messages; a delete call either raises or succeeds; the processing step
  either raises or returns — all supplied by a `PollEnv`;
* the consumer loop `poll_sqs` is a fuel-indexed recursion producing the
  trace of observable actions (receive calls with their parameters,
  processing calls with their outcome, delete calls keyed by receipt
  handle, cooldown sleeps), exactly following the Python control flow:
  one `try` block wrapping the receive call and the whole per-message
  `for` loop, with a single `except Exception` that logs and sleeps 5;
* the producer `send_message` builds its kwargs dict with Python
  truthiness tests on the optional FIFO keys, performs one client call
  and returns the `MessageId` of the response, propagating any client
  error unchanged.
-/

namespace SqsService

/-- Model of a parsed JSON value (the result of `json.loads`). -/
inductive Json where
  | null : Json
  | bool (b : Bool) : Json
  | num (n : Int) : Json
  | str (s : String) : Json
  | arr (xs : List Json) : Json
  | obj (fields : List (String × Json)) : Json

/-- A delivered SQS message as consumed by the loop.  The Python code reads
`message.get("Body", "")` — so the body may be absent — and
`msg["ReceiptHandle"]`, which the provider contract guarantees present on
every delivery. -/
structure Message where
  Body : Option String
  ReceiptHandle : String
deriving DecidableEq

/-- What `_process_message` logs: the parsed JSON value, or the raw body
string when parsing failed. -/
inductive ProcessOutcome where
  | parsed (v : Json) : ProcessOutcome
  | raw (s : String) : ProcessOutcome

/-- Embedding of `_process_message`.  `jsonLoads` models `json.loads`,
returning `none` where the Python call would raise `JSONDecodeError`; the
`try`/`except JSONDecodeError` of the source becomes the `match`, and both
branches return normally (`Except.ok`), so the shipped processing step
never raises. -/
def _process_message (jsonLoads : String → Option Json) (message : Message) :
    Except Unit ProcessOutcome :=
  let body := message.Body.getD ""
  match jsonLoads body with
  | some parsed => Except.ok (ProcessOutcome.parsed parsed)
  | none => Except.ok (ProcessOutcome.raw body)

/-- The kwargs dict passed to `client.send_message`. -/
structure SendRequest where
  QueueUrl : String
  MessageBody : String
  MessageGroupId : Option String
  MessageDeduplicationId : Option String
deriving DecidableEq

/-- The provider response to a send call. -/
structure SendResponse where
  MessageId : String
deriving DecidableEq

/-- Python truthiness of an optional string: `if message_group_id:` is
false for `None` and for the empty string. -/
def pyTruthy : Option String → Bool
  | none => false
  | some s => !s.isEmpty

/-- Embedding of the kwargs construction in `send_message`: the base dict
always holds `QueueUrl` and `MessageBody`; each FIFO key is added only when
its argument is truthy. -/
def buildSendRequest (queueUrl body : String)
    (message_group_id message_deduplication_id : Option String) : SendRequest :=
  let kwargs : SendRequest :=
    { QueueUrl := queueUrl, MessageBody := body,
      MessageGroupId := none, MessageDeduplicationId := none }
  let kwargs :=
    if pyTruthy message_group_id then
      { kwargs with MessageGroupId := message_group_id }
    else kwargs
  if pyTruthy message_deduplication_id then
    { kwargs with MessageDeduplicationId := message_deduplication_id }
  else kwargs

/-- Embedding of the producer `send_message`.  `dumps` models `json.dumps`
on the payload, `client` models `client.send_message` (raising = `error`).
The first component of the result is the list of client calls issued (in
order); the second is the return value, an exception propagating unchanged
when the client raises. -/
def send_message {α ε : Type} (dumps : α → String) (queueUrl : String)
    (client : SendRequest → Except ε SendResponse)
    (payload : α)
    (message_group_id message_deduplication_id : Option String) :
    List SendRequest × Except ε String :=
  let body := dumps payload
  let req := buildSendRequest queueUrl body message_group_id message_deduplication_id
  match client req with
  | Except.error e => ([req], Except.error e)
  | Except.ok response => ([req], Except.ok response.MessageId)

/-- Environment of one run of the consumer loop: the stop flag as read at
the top of iteration `i`, the result of the receive call of iteration `i`,
the result of the `j`-th delete call of iteration `i`, and the processing
step (the shipped `_process_message`, or any injected callback). -/
structure PollEnv where
  stopSet : Nat → Bool
  receiveRes : Nat → Except Unit (List Message)
  deleteRes : Nat → Nat → Except Unit Unit
  process : Message → Except Unit Unit

/-- Observable actions of the consumer loop. -/
inductive Event where
  | receiveCall (maxNumberOfMessages waitTimeSeconds : Nat) : Event
  | processCall (m : Message) (raised : Bool) : Event
  | deleteCall (receiptHandle : String) (raised : Bool) : Event
  | cooldown (seconds : Nat) : Event
deriving DecidableEq

/-- The per-message `for` loop body of `poll_sqs`: process each message,
then delete it by receipt handle.  Returns the trace and whether an
exception escaped (aborting the rest of the batch into the `except`
handler).  `j` indexes delete calls within the iteration. -/
def processBatch (env : PollEnv) (i : Nat) : List Message → Nat → List Event × Bool
  | [], _ => ([], false)
  | m :: rest, j =>
    match env.process m with
    | Except.error _ => ([Event.processCall m true], true)
    | Except.ok _ =>
      match env.deleteRes i j with
      | Except.error _ =>
        ([Event.processCall m false, Event.deleteCall m.ReceiptHandle true], true)
      | Except.ok _ =>
        let r := processBatch env i rest (j + 1)
        (Event.processCall m false :: Event.deleteCall m.ReceiptHandle false :: r.1, r.2)

/-- One iteration of the `while` body of `poll_sqs`: the `try` block wraps
the receive call (always issued with `MaxNumberOfMessages=10`,
`WaitTimeSeconds=20`) and the whole `for` loop; the `except Exception`
handler sleeps 5 whenever either the receive raised or the batch aborted. -/
def poll_sqs_iter (env : PollEnv) (i : Nat) : List Event :=
  match env.receiveRes i with
  | Except.error _ => [Event.receiveCall 10 20, Event.cooldown 5]
  | Except.ok messages =>
    let r := processBatch env i messages 0
    Event.receiveCall 10 20 :: r.1 ++ (if r.2 then [Event.cooldown 5] else [])

/-- The consumer loop `poll_sqs`: `while not stop_event.is_set():` checks
the stop flag at the top of each iteration and only there; the fuel bounds
the number of iterations observed (the Python loop is unbounded). -/
def poll_sqs (env : PollEnv) : Nat → Nat → List Event
  | 0, _ => []
  | Nat.succ fuel, i =>
    if env.stopSet i then []
    else poll_sqs_iter env i ++ poll_sqs env fuel (i + 1)

/-- Receipt handles for which a delete call was issued, in order. -/
def deletedHandles (evs : List Event) : List String :=
  evs.filterMap fun e =>
    match e with
    | Event.deleteCall rh _ => some rh
    | _ => none

/-- Messages whose processing step returned without error, in order. -/
def processedOk (evs : List Event) : List Message :=
  evs.filterMap fun e =>
    match e with
    | Event.processCall m false => some m
    | _ => none

/-- The shipped processing step: run `_process_message` and discard its
logged outcome; it returns without error exactly when `_process_message`
does. -/
def shippedProcess (jsonLoads : String → Option Json) (m : Message) :
    Except Unit Unit :=
  match _process_message jsonLoads m with
  | Except.error e => Except.error e
  | Except.ok _ => Except.ok ()

/-- How the background task finished, as seen by `lifespan` in `main.py`. -/
inductive TaskOutcome where
  | completed : TaskOutcome
  | cancelled : TaskOutcome
deriving DecidableEq

/-- Embedding of the shutdown block of `lifespan`: `await sqs_task` under
`except asyncio.CancelledError: pass` — a cancelled consumer task is
swallowed exactly like normal completion (`true` = shutdown proceeds
without error). -/
def lifespanAwaitConsumer : TaskOutcome → Bool
  | TaskOutcome.completed => true
  | TaskOutcome.cancelled => true

deriving instance DecidableEq for Except

/-! ### Concrete material used by witnesses and counterexamples -/

/-- A message whose body is valid JSON under `jl0`. -/
def msgA : Message := ⟨some "1", "rh-A"⟩

/-- A message whose body is not valid JSON under `jl0`. -/
def msgB : Message := ⟨some "not json", "rh-B"⟩

/-- A message marked so that the injected callback of `envAbort` raises. -/
def msgC : Message := ⟨some "fail", "rh-C"⟩

/-- A message delivered without a `Body` field. -/
def msgD : Message := ⟨none, "rh-D"⟩

/-- A toy model of `json.loads`: only the string `"1"` parses. -/
def jl0 : String → Option Json :=
  fun s => if s = "1" then some (Json.num 1) else none

/-- Environment where iteration 0 receives `[msgA, msgB, msgD]`, every
delete succeeds, the processing step is the shipped one, and the stop
signal is set from iteration 1 on. -/
def envOk : PollEnv :=
  { stopSet := fun n => decide (1 ≤ n)
  , receiveRes := fun _ => Except.ok [msgA, msgB, msgD]
  , deleteRes := fun _ _ => Except.ok ()
  , process := shippedProcess jl0 }

/-- Environment whose processing step raises on every message. -/
def envProcFail : PollEnv :=
  { stopSet := fun n => decide (1 ≤ n)
  , receiveRes := fun _ => Except.ok [msgA]
  , deleteRes := fun _ _ => Except.ok ()
  , process := fun _ => Except.error () }

/-- Environment where the receive call of iteration 0 raises and every
delete call raises. -/
def envDelFail : PollEnv :=
  { stopSet := fun n => decide (2 ≤ n)
  , receiveRes := fun n => if n = 0 then Except.error () else Except.ok [msgA]
  , deleteRes := fun _ _ => Except.error ()
  , process := fun _ => Except.ok () }

/-- Environment with an injected callback that raises exactly on `msgC`,
receiving the batch `[msgA, msgC, msgB]` each iteration. -/
def envAbort : PollEnv :=
  { stopSet := fun n => decide (1 ≤ n)
  , receiveRes := fun _ => Except.ok [msgA, msgC, msgB]
  , deleteRes := fun _ _ => Except.ok ()
  , process := fun m => if m.Body = some "fail" then Except.error () else Except.ok () }

/-! ### Helper lemmas -/

/-- The shipped processing step returns without error on every message. -/
theorem shippedProcess_ok (jl : String → Option Json) (m : Message) :
    shippedProcess jl m = Except.ok () := by
  unfold shippedProcess _process_message
  cases h : jl (m.Body.getD "") <;> simp [h]

/-- Within one batch the delete calls correspond, in order, exactly to the
messages whose processing step returned without error. -/
theorem processBatch_deleted_eq (env : PollEnv) (i : Nat) (msgs : List Message) :
    ∀ j, deletedHandles (processBatch env i msgs j).1 =
      (processedOk (processBatch env i msgs j).1).map Message.ReceiptHandle := by
  induction msgs with
  | nil => intro j; rfl
  | cons m rest ih =>
    intro j
    simp only [processBatch]
    cases env.process m with
    | error e => rfl
    | ok u =>
      cases env.deleteRes i j with
      | error e => rfl
      | ok u =>
        have h := ih (j + 1)
        simp only [deletedHandles, processedOk, List.filterMap_cons] at h ⊢
        simpa using h

/-- The deleted-handle projection distributes over concatenation. -/
theorem deletedHandles_append (a b : List Event) :
    deletedHandles (a ++ b) = deletedHandles a ++ deletedHandles b := by
  simp [deletedHandles]

/-- The processed-ok projection distributes over concatenation. -/
theorem processedOk_append (a b : List Event) :
    processedOk (a ++ b) = processedOk a ++ processedOk b := by
  simp [processedOk]

/-- No receive call is issued from inside the per-message loop. -/
theorem receiveCall_not_in_processBatch (env : PollEnv) (i : Nat)
    (msgs : List Message) (n w : Nat) :
    ∀ j, Event.receiveCall n w ∉ (processBatch env i msgs j).1 := by
  induction msgs with
  | nil => intro j h; exact absurd h (List.not_mem_nil _)
  | cons m rest ih =>
    intro j h
    revert h
    simp only [processBatch]
    cases env.process m with
    | error e => simp
    | ok u =>
      cases env.deleteRes i j with
      | error e => simp
      | ok u =>
        simp only [List.mem_cons]
        rintro (h | h | h)
        · exact Event.noConfusion h
        · exact Event.noConfusion h
        · exact ih (j + 1) h

/-- When the processing step and every delete call succeed, the batch runs
to completion: every message is deleted, in order, and no exception escapes
to the handler. -/
theorem processBatch_all_ok (env : PollEnv) (i : Nat)
    (hok : ∀ m, env.process m = Except.ok ())
    (hdel : ∀ j, env.deleteRes i j = Except.ok ()) :
    ∀ (msgs : List Message) (j : Nat),
      deletedHandles (processBatch env i msgs j).1 = msgs.map Message.ReceiptHandle ∧
      (processBatch env i msgs j).2 = false := by
  intro msgs
  induction msgs with
  | nil => intro j; exact ⟨rfl, rfl⟩
  | cons m rest ih =>
    intro j
    have h := ih (j + 1)
    simp only [processBatch, hok m, hdel j]
    constructor
    · simp only [deletedHandles, List.filterMap_cons] at h ⊢
      simpa using h.1
    · exact h.2

/-- Aborting in the middle of a batch: if every message of `pre` is
processed and deleted successfully and the next message `m` fails (its
processing raises, or its delete call raises), the trace is the same as if
the batch had ended at `m` — the remainder `rest` contributes nothing —
and the exception escapes to the handler. -/
theorem processBatch_abort_aux (env : PollEnv) (i : Nat) :
    ∀ (pre : List Message) (j : Nat) (m : Message) (rest : List Message),
      (∀ k (hk : k < pre.length),
        env.process (pre.get ⟨k, hk⟩) = Except.ok () ∧
        env.deleteRes i (j + k) = Except.ok ()) →
      (env.process m = Except.error () ∨ env.deleteRes i (j + pre.length) = Except.error ()) →
      processBatch env i (pre ++ m :: rest) j = processBatch env i (pre ++ [m]) j ∧
      (processBatch env i (pre ++ m :: rest) j).2 = true := by
  intro pre
  induction pre with
  | nil =>
    intro j m rest _ hm
    simp only [List.nil_append]
    cases hp : env.process m with
    | error e => simp [processBatch, hp]
    | ok u =>
      cases hm with
      | inl h => rw [hp] at h; exact absurd h (by simp)
      | inr h =>
        simp only [List.length_nil, Nat.add_zero] at h
        simp [processBatch, hp, h]
  | cons p pre ih =>
    intro j m rest hpre hm
    have hp := hpre 0 (by simp)
    simp only [List.get] at hp
    have hrec := ih (j + 1) m rest
      (fun k hk => by
        have h := hpre (k + 1) (by simpa using Nat.succ_lt_succ hk)
        simp only [List.get] at h
        refine ⟨h.1, ?_⟩
        have : j + 1 + k = j + (k + 1) := by omega
        rw [this]
        exact h.2)
      (by
        cases hm with
        | inl h => exact Or.inl h
        | inr h =>
          refine Or.inr ?_
          have : j + 1 + pre.length = j + (p :: pre).length := by simp; omega
          rw [this]
          exact h)
    have hd : env.deleteRes i j = Except.ok () := by simpa using hp.2
    simp only [List.cons_append, processBatch, hp.1, hd, List.append_eq]
    refine ⟨?_, ?_⟩
    · rw [hrec.1]
    · exact hrec.2

/-- Per-iteration form of the delete/processing correspondence. -/
theorem poll_iter_deleted_eq (env : PollEnv) (i : Nat) :
    deletedHandles (poll_sqs_iter env i) =
      (processedOk (poll_sqs_iter env i)).map Message.ReceiptHandle := by
  simp only [poll_sqs_iter]
  cases env.receiveRes i with
  | error e => rfl
  | ok msgs =>
    have h := processBatch_deleted_eq env i msgs 0
    cases hb : (processBatch env i msgs 0).2 <;>
      simp only [hb, if_true, if_false, deletedHandles, processedOk,
        List.filterMap_cons, List.filterMap_append, List.filterMap_nil] <;>
      simpa [deletedHandles, processedOk] using h

/-- Whole-run form of the delete/processing correspondence. -/
theorem poll_sqs_deleted_eq (env : PollEnv) (fuel : Nat) :
    ∀ i, deletedHandles (poll_sqs env fuel i) =
      (processedOk (poll_sqs env fuel i)).map Message.ReceiptHandle := by
  induction fuel with
  | zero => intro i; rfl
  | succ fuel ih =>
    intro i
    simp only [poll_sqs]
    cases hs : env.stopSet i
    · simp only [Bool.false_eq_true, if_false]
      rw [deletedHandles_append, processedOk_append, List.map_append,
        poll_iter_deleted_eq, ih]
    · rfl

/-- C1: for every message in a received batch, a delete call (keyed by that
delivery's receipt handle) is issued if and only if the processing step
returned without error for that message — the sequence of receipt handles
deleted in an iteration, and over a whole run, equals the sequence of
receipt handles of the successfully processed messages; a message whose
processing step raises is never deleted. -/
theorem delete_iff_processing_succeeded (env : PollEnv) (fuel i : Nat) :
    deletedHandles (poll_sqs_iter env i) =
      (processedOk (poll_sqs_iter env i)).map Message.ReceiptHandle ∧
    deletedHandles (poll_sqs env fuel i) =
      (processedOk (poll_sqs env fuel i)).map Message.ReceiptHandle :=
  ⟨poll_iter_deleted_eq env i, poll_sqs_deleted_eq env fuel i⟩

/-- Any receive call of a single iteration carries exactly the parameters
`MaxNumberOfMessages=10`, `WaitTimeSeconds=20`. -/
theorem receiveCall_in_iter (env : PollEnv) (i n w : Nat)
    (h : Event.receiveCall n w ∈ poll_sqs_iter env i) : n = 10 ∧ w = 20 := by
  revert h
  simp only [poll_sqs_iter]
  cases env.receiveRes i with
  | error e =>
    intro h
    rcases List.mem_cons.mp h with h | h
    · injection h with h1 h2; exact ⟨h1, h2⟩
    · rcases List.mem_cons.mp h with h | h
      · exact absurd h (by simp)
      · exact absurd h (List.not_mem_nil _)
  | ok msgs =>
    intro h
    rcases List.mem_cons.mp h with h | h
    · injection h with h1 h2; exact ⟨h1, h2⟩
    · rcases List.mem_append.mp h with h | h
      · exact absurd h (receiveCall_not_in_processBatch env i msgs n w 0)
      · cases hb : (processBatch env i msgs 0).2 <;> rw [hb] at h
        · exact absurd h (List.not_mem_nil _)
        · rcases List.mem_cons.mp h with h | h
          · exact absurd h (by simp)
          · exact absurd h (List.not_mem_nil _)

/-- C5: every receive call issued anywhere in a run of the consumer loop
requests at most 10 messages and waits at most 20 time units (indeed the
loop always passes exactly 10 and 20). -/
theorem receive_call_bounds (env : PollEnv) (fuel : Nat) :
    ∀ (i n w : Nat), Event.receiveCall n w ∈ poll_sqs env fuel i →
      n ≤ 10 ∧ w ≤ 20 := by
  induction fuel with
  | zero => intro i n w h; exact absurd h (List.not_mem_nil _)
  | succ fuel ih =>
    intro i n w h
    rw [poll_sqs] at h
    cases hs : env.stopSet i <;> rw [hs] at h
    · simp only [Bool.false_eq_true, if_false] at h
      rcases List.mem_append.mp h with h | h
      · have := receiveCall_in_iter env i n w h
        omega
      · exact ih (i + 1) n w h
    · exact absurd h (by simp)

/-- Witness for C5: the first receive call of a concrete run of the loop
obeys the bounds. -/
theorem receive_call_bounds_witness : 10 ≤ 10 ∧ 20 ≤ 20 :=
  receive_call_bounds envOk 1 0 10 20 (by decide)

/-- The per-message loop never consults the stop flag. -/
theorem processBatch_stop_irrel (env : PollEnv) (s : Nat → Bool) (i : Nat) :
    ∀ (msgs : List Message) (j : Nat),
      processBatch { env with stopSet := s } i msgs j = processBatch env i msgs j := by
  intro msgs
  induction msgs with
  | nil => intro j; rfl
  | cons m rest ih =>
    intro j
    simp only [processBatch]
    cases env.process m with
    | error e => rfl
    | ok u =>
      cases env.deleteRes i j with
      | error e => rfl
      | ok u => rw [ih (j + 1)]

/-- A whole iteration never consults the stop flag. -/
theorem poll_iter_stop_irrel (env : PollEnv) (s : Nat → Bool) (i : Nat) :
    poll_sqs_iter { env with stopSet := s } i = poll_sqs_iter env i := by
  simp only [poll_sqs_iter]
  cases env.receiveRes i with
  | error e => rfl
  | ok msgs => simp only [processBatch_stop_irrel]

/-- C2: once the stop signal is observed set at the top of an iteration,
the loop returns immediately and issues no further receive call; when it
is not set, the fetched batch runs through one full iteration (parse,
process, delete per message) before the flag is consulted again; the stop
flag is read only at the top of an iteration — `poll_sqs_iter` is
independent of it; and the supervisor's shutdown treats cancellation of
the in-flight task exactly like normal completion, not as an error. -/
theorem graceful_stop (env : PollEnv) (fuel i : Nat) (s : Nat → Bool) :
    (env.stopSet i = true → poll_sqs env fuel i = []) ∧
    (env.stopSet i = false →
      poll_sqs env (fuel + 1) i = poll_sqs_iter env i ++ poll_sqs env fuel (i + 1)) ∧
    poll_sqs_iter { env with stopSet := s } i = poll_sqs_iter env i ∧
    (lifespanAwaitConsumer TaskOutcome.cancelled = true ∧
      lifespanAwaitConsumer TaskOutcome.cancelled =
        lifespanAwaitConsumer TaskOutcome.completed) := by
  refine ⟨?_, ?_, poll_iter_stop_irrel env s i, rfl, rfl⟩
  · intro h
    cases fuel with
    | zero => rfl
    | succ fuel => simp [poll_sqs, h]
  · intro h
    simp [poll_sqs, h]

/-- Witness for C2 at a concrete environment: the stop flag of `envOk` is
set from iteration 1, so the loop started at 1 is silent, while iteration
0 runs in full before the flag is consulted again. -/
theorem graceful_stop_witness :
    poll_sqs envOk 5 1 = [] ∧
    poll_sqs envOk 3 0 = poll_sqs_iter envOk 0 ++ poll_sqs envOk 2 1 :=
  ⟨(graceful_stop envOk 5 1 (fun _ => true)).1 (by decide),
   (graceful_stop envOk 2 0 (fun _ => true)).2.1 (by decide)⟩

/-- C4: a transport error on the receive call is caught inside the loop:
the iteration ends with the fixed 5-unit cooldown and the loop re-enters
at the next iteration; a raising delete call is likewise caught — the
batch aborts into the handler — and an aborted batch ends its iteration
with the same 5-unit cooldown before the loop re-enters; in every case the
loop continues rather than terminating or propagating the exception. -/
theorem transport_error_cooldown (env : PollEnv) (fuel i j : Nat) (m : Message)
    (rest batch : List Message) :
    (env.receiveRes i = Except.error () → env.stopSet i = false →
      poll_sqs env (fuel + 1) i =
        [Event.receiveCall 10 20, Event.cooldown 5] ++ poll_sqs env fuel (i + 1)) ∧
    (env.process m = Except.ok () → env.deleteRes i j = Except.error () →
      processBatch env i (m :: rest) j =
        ([Event.processCall m false, Event.deleteCall m.ReceiptHandle true], true)) ∧
    ((processBatch env i batch 0).2 = true → env.receiveRes i = Except.ok batch →
      env.stopSet i = false →
      poll_sqs env (fuel + 1) i =
        (Event.receiveCall 10 20 :: (processBatch env i batch 0).1 ++ [Event.cooldown 5])
          ++ poll_sqs env fuel (i + 1)) := by
  refine ⟨?_, ?_, ?_⟩
  · intro hr hs
    simp [poll_sqs, hs, poll_sqs_iter, hr]
  · intro hp hd
    simp [processBatch, hp, hd]
  · intro hb hr hs
    simp [poll_sqs, hs, poll_sqs_iter, hr, hb]

/-- Witness for C4 at `envDelFail`: iteration 0's receive raises and the
loop re-enters; iteration 1 receives `[msgA]`, whose delete raises, and the
aborted batch ends in the cooldown before the loop re-enters. -/
theorem transport_error_cooldown_witness :
    (poll_sqs envDelFail 3 0 =
      [Event.receiveCall 10 20, Event.cooldown 5] ++ poll_sqs envDelFail 2 1) ∧
    (processBatch envDelFail 1 [msgA] 0 =
      ([Event.processCall msgA false, Event.deleteCall msgA.ReceiptHandle true], true)) ∧
    (poll_sqs envDelFail 2 1 =
      (Event.receiveCall 10 20 :: (processBatch envDelFail 1 [msgA] 0).1 ++ [Event.cooldown 5])
        ++ poll_sqs envDelFail 1 2) := by
  refine ⟨?_, ?_, ?_⟩
  · exact (transport_error_cooldown envDelFail 2 0 0 msgA [] []).1 rfl (by decide)
  · exact (transport_error_cooldown envDelFail 2 1 0 msgA [] []).2.1 rfl rfl
  · exact (transport_error_cooldown envDelFail 1 1 0 msgA [] [msgA]).2.2 (by decide) rfl
      (by decide)

/-- C3 counterexample: in a concrete environment whose processing step
raises on the (single) received message, the message is indeed left
undeleted, but the iteration ends with the very same 5-unit cooldown that
the claim reserves for transport failures — the code's single
`except Exception` handler does not distinguish the two categories. -/
theorem processing_failure_cooldown_cex :
    poll_sqs_iter envProcFail 0 =
      [Event.receiveCall 10 20, Event.processCall msgA true, Event.cooldown 5] ∧
    deletedHandles (poll_sqs_iter envProcFail 0) = [] ∧
    Event.cooldown 5 ∈ poll_sqs_iter envProcFail 0 := by
  refine ⟨by decide, by decide, by decide⟩

/-- C3 amended: when the processing step raises for a message, that
message is left undeleted (recovery is provider-side redelivery), but the
exception is caught by the same handler as transport failures, so the
remainder of the batch is abandoned and the iteration ends with the same
fixed 5-unit cooldown that applies to transport failures. -/
theorem processing_failure_same_handler (env : PollEnv) (i j : Nat) (m : Message)
    (rest batch : List Message)
    (hm : env.process m = Except.error ()) :
    processBatch env i (m :: rest) j = ([Event.processCall m true], true) ∧
    ((processBatch env i batch 0).2 = true → env.receiveRes i = Except.ok batch →
      poll_sqs_iter env i =
        Event.receiveCall 10 20 :: (processBatch env i batch 0).1 ++ [Event.cooldown 5]) := by
  constructor
  · simp [processBatch, hm]
  · intro hb hr
    simp [poll_sqs_iter, hr, hb]

/-- Witness for the amended C3 at `envProcFail`. -/
theorem processing_failure_same_handler_witness :
    processBatch envProcFail 0 [msgA] 0 = ([Event.processCall msgA true], true) ∧
    poll_sqs_iter envProcFail 0 =
      Event.receiveCall 10 20 :: (processBatch envProcFail 0 [msgA] 0).1
        ++ [Event.cooldown 5] :=
  ⟨(processing_failure_same_handler envProcFail 0 0 msgA [] [msgA] rfl).1,
   (processing_failure_same_handler envProcFail 0 0 msgA [] [msgA] rfl).2
     (by decide) rfl⟩

/-- An optional string is truthy exactly when it is a non-empty string. -/
theorem pyTruthy_some (s : String) : pyTruthy (some s) = true ↔ s ≠ "" := by
  constructor
  · intro h hs
    subst hs
    exact absurd h (by decide)
  · intro h
    have hb : s.isEmpty = false := by
      cases hs : s.isEmpty
      · rfl
      · exact absurd ((String.isEmpty_iff s).mp hs) h
    simp [pyTruthy, hb]

/-- The four fields of the built kwargs dict: queue and body always
present, each FIFO key present exactly when its argument is truthy. -/
theorem buildSendRequest_proj (q b : String) (mgid mdid : Option String) :
    (buildSendRequest q b mgid mdid).QueueUrl = q ∧
    (buildSendRequest q b mgid mdid).MessageBody = b ∧
    (buildSendRequest q b mgid mdid).MessageGroupId =
      (if pyTruthy mgid then mgid else none) ∧
    (buildSendRequest q b mgid mdid).MessageDeduplicationId =
      (if pyTruthy mdid then mdid else none) := by
  unfold buildSendRequest
  cases h1 : pyTruthy mgid <;> cases h2 : pyTruthy mdid <;> simp [h1, h2]

/-- Characterisation of the truthiness gate: the key survives into the
request exactly when the caller passed a non-empty string. -/
theorem ite_truthy_eq_some (o : Option String) (g : String) :
    (if pyTruthy o then o else none) = some g ↔ o = some g ∧ g ≠ "" := by
  cases o with
  | none => simp [pyTruthy]
  | some a =>
    rcases eq_or_ne a "" with ha | ha
    · subst ha
      have ht : pyTruthy (some "") = false := rfl
      simp only [ht, Bool.false_eq_true, if_false, Option.some.injEq]
      constructor
      · intro h; exact Option.noConfusion h
      · rintro ⟨h1, h2⟩; exact absurd h1.symm h2
    · have ht : pyTruthy (some a) = true := (pyTruthy_some a).mpr ha
      simp only [ht, if_true, Option.some.injEq]
      exact ⟨fun h => ⟨h, fun hgE => ha (h.trans hgE)⟩, fun h => h.1⟩

/-- C6: the producer serialises the payload with the JSON encoder as the
message body, addresses the configured queue, and returns the
provider-assigned `MessageId`; each FIFO key appears in the provider
request exactly when the caller passed a non-empty string — `none` and
`some ""` are both omitted. -/
theorem send_message_spec {α ε : Type} (dumps : α → String) (q : String)
    (client : SendRequest → Except ε SendResponse) (payload : α)
    (mgid mdid : Option String) (resp : SendResponse)
    (hok : client (buildSendRequest q (dumps payload) mgid mdid) = Except.ok resp) :
    (send_message dumps q client payload mgid mdid).2 = Except.ok resp.MessageId ∧
    (buildSendRequest q (dumps payload) mgid mdid).MessageBody = dumps payload ∧
    (buildSendRequest q (dumps payload) mgid mdid).QueueUrl = q ∧
    (∀ g : String,
      (buildSendRequest q (dumps payload) mgid mdid).MessageGroupId = some g ↔
        mgid = some g ∧ g ≠ "") ∧
    (∀ d : String,
      (buildSendRequest q (dumps payload) mgid mdid).MessageDeduplicationId = some d ↔
        mdid = some d ∧ d ≠ "") := by
  obtain ⟨hq, hb, hg, hd⟩ := buildSendRequest_proj q (dumps payload) mgid mdid
  refine ⟨?_, hb, hq, ?_, ?_⟩
  · simp only [send_message, hok]
  · intro g
    rw [hg]
    exact ite_truthy_eq_some mgid g
  · intro d
    rw [hd]
    exact ite_truthy_eq_some mdid d

/-- Witness for C6: a concrete send with an empty ordering key and a
non-empty dedup key. -/
theorem send_message_spec_witness :
    (send_message (fun n : Nat => toString n) "queue-url"
      (fun _ => (Except.ok ⟨"mid-1"⟩ : Except String SendResponse)) 7
        (some "") (some "g")).2 =
      Except.ok (SendResponse.mk "mid-1").MessageId ∧
    (buildSendRequest "queue-url" (toString 7) (some "") (some "g")).MessageBody =
      toString 7 ∧
    (buildSendRequest "queue-url" (toString 7) (some "") (some "g")).QueueUrl =
      "queue-url" ∧
    (∀ g : String,
      (buildSendRequest "queue-url" (toString 7) (some "") (some "g")).MessageGroupId =
        some g ↔ (some "" = some g ∧ g ≠ "")) ∧
    (∀ d : String,
      (buildSendRequest "queue-url" (toString 7) (some "") (some "g")).MessageDeduplicationId =
        some d ↔ (some "g" = some d ∧ d ≠ "")) :=
  send_message_spec (fun n : Nat => toString n) "queue-url"
    (fun _ => (Except.ok ⟨"mid-1"⟩ : Except String SendResponse)) 7
    (some "") (some "g") ⟨"mid-1"⟩ rfl

/-- C8: each producer call issues exactly one submission to the provider —
the single built request, with no retry — and a provider error during that
call propagates to the caller unchanged. -/
theorem send_single_call_no_retry {α ε : Type} (dumps : α → String) (q : String)
    (client : SendRequest → Except ε SendResponse) (payload : α)
    (mgid mdid : Option String) :
    (send_message dumps q client payload mgid mdid).1 =
      [buildSendRequest q (dumps payload) mgid mdid] ∧
    (∀ e : ε, client (buildSendRequest q (dumps payload) mgid mdid) = Except.error e →
      (send_message dumps q client payload mgid mdid).2 = Except.error e) := by
  constructor
  · simp only [send_message]
    cases client (buildSendRequest q (dumps payload) mgid mdid) <;> rfl
  · intro e he
    simp only [send_message, he]

/-- Witness for C8: a concrete send against a client that raises; the one
request is issued and the error value comes back unchanged. -/
theorem send_single_call_no_retry_witness :
    (send_message (fun n : Nat => toString n) "queue-url"
      (fun _ => (Except.error "boom" : Except String SendResponse)) 7 none none).1 =
        [buildSendRequest "queue-url" (toString 7) none none] ∧
    (send_message (fun n : Nat => toString n) "queue-url"
      (fun _ => (Except.error "boom" : Except String SendResponse)) 7 none none).2 =
        Except.error "boom" :=
  ⟨(send_single_call_no_retry (fun n : Nat => toString n) "queue-url"
      (fun _ => Except.error "boom") 7 none none).1,
   (send_single_call_no_retry (fun n : Nat => toString n) "queue-url"
      (fun _ => Except.error "boom") 7 none none).2 "boom" rfl⟩

/-- C7: when the body of a received message fails to parse as JSON, the
processing step returns normally with the raw body string as the processed
value — parse failure is not a message failure — and, under the shipped
processing step with succeeding delete calls, such a message is deleted
like any other in its iteration. -/
theorem parse_failure_raw_processing (jl : String → Option Json) (env : PollEnv)
    (i : Nat) (m : Message) (msgs : List Message)
    (hproc : env.process = shippedProcess jl)
    (hparse : jl (m.Body.getD "") = none)
    (hdel : ∀ j, env.deleteRes i j = Except.ok ())
    (hrecv : env.receiveRes i = Except.ok msgs)
    (hmem : m ∈ msgs) :
    _process_message jl m = Except.ok (ProcessOutcome.raw (m.Body.getD "")) ∧
    m.ReceiptHandle ∈ deletedHandles (poll_sqs_iter env i) := by
  constructor
  · simp [_process_message, hparse]
  · have hok : ∀ m', env.process m' = Except.ok () := by
      intro m'
      rw [hproc]
      exact shippedProcess_ok jl m'
    have hall := processBatch_all_ok env i hok hdel msgs 0
    simp only [poll_sqs_iter, hrecv, hall.2, Bool.false_eq_true, if_false,
      List.append_nil]
    rw [deletedHandles]
    simp only [List.filterMap_cons]
    rw [← deletedHandles, hall.1]
    exact List.mem_map_of_mem Message.ReceiptHandle hmem

/-- Witness for C7 at `envOk`: the body of `msgB` does not parse under
`jl0`, yet it is processed as the raw string and its handle is deleted. -/
theorem parse_failure_raw_processing_witness :
    _process_message jl0 msgB = Except.ok (ProcessOutcome.raw (msgB.Body.getD "")) ∧
    msgB.ReceiptHandle ∈ deletedHandles (poll_sqs_iter envOk 0) :=
  parse_failure_raw_processing jl0 envOk 0 msgB [msgA, msgB, msgD]
    rfl rfl (fun _ => rfl) rfl (by decide)

/-- C9: if the processing or the deletion of the k-th message of a batch
raises (every earlier message having been processed and deleted
successfully), the trace of the iteration is exactly that of the batch cut
off right after the k-th message — no later message of the batch is
processed or deleted — and the iteration ends in the cooldown path. -/
theorem batch_abandoned_after_failure (env : PollEnv) (i : Nat)
    (pre : List Message) (m : Message) (rest : List Message)
    (hpre : ∀ k (hk : k < pre.length),
      env.process (pre.get ⟨k, hk⟩) = Except.ok () ∧
      env.deleteRes i k = Except.ok ())
    (hm : env.process m = Except.error () ∨
      env.deleteRes i pre.length = Except.error ()) :
    processBatch env i (pre ++ m :: rest) 0 = processBatch env i (pre ++ [m]) 0 ∧
    (processBatch env i (pre ++ m :: rest) 0).2 = true ∧
    (env.receiveRes i = Except.ok (pre ++ m :: rest) →
      poll_sqs_iter env i =
        Event.receiveCall 10 20 :: (processBatch env i (pre ++ [m]) 0).1
          ++ [Event.cooldown 5]) := by
  have habort := processBatch_abort_aux env i pre 0 m rest
    (fun k hk => by simpa using hpre k hk)
    (by simpa using hm)
  refine ⟨habort.1, habort.2, ?_⟩
  intro hrecv
  have h2 : (processBatch env i (pre ++ [m]) 0).2 = true := by
    rw [← habort.1]; exact habort.2
  simp only [poll_sqs_iter, hrecv, habort.1, h2, if_true]

/-- Witness for C9 at `envAbort`: processing raises on `msgC`, the second
message of the batch `[msgA, msgC, msgB]`, so `msgB` is neither processed
nor deleted and the iteration ends in the cooldown. -/
theorem batch_abandoned_after_failure_witness :
    processBatch envAbort 0 ([msgA] ++ msgC :: [msgB]) 0 =
      processBatch envAbort 0 ([msgA] ++ [msgC]) 0 ∧
    (processBatch envAbort 0 ([msgA] ++ msgC :: [msgB]) 0).2 = true ∧
    poll_sqs_iter envAbort 0 =
      Event.receiveCall 10 20 :: (processBatch envAbort 0 ([msgA] ++ [msgC]) 0).1
        ++ [Event.cooldown 5] := by
  have h := batch_abandoned_after_failure envAbort 0 [msgA] msgC [msgB]
    (by decide) (Or.inl rfl)
  exact ⟨h.1, h.2.1, h.2.2 rfl⟩

/-- C10: a message delivered without a `Body` field is processed exactly as
if its body were the empty string, the processing step returns without
raising, and — under the shipped processing step — the message's delete
call is attempted (whether or not that delete then succeeds). -/
theorem missing_body_as_empty_string (jl : String → Option Json) (env : PollEnv)
    (i j : Nat) (m : Message) (rest : List Message)
    (hbody : m.Body = none)
    (hproc : env.process = shippedProcess jl) :
    _process_message jl m = _process_message jl { m with Body := some "" } ∧
    (∃ out, _process_message jl m = Except.ok out) ∧
    (∃ (b : Bool) (tail : List Event),
      (processBatch env i (m :: rest) j).1 =
        Event.processCall m false :: Event.deleteCall m.ReceiptHandle b :: tail) := by
  refine ⟨?_, ?_, ?_⟩
  · rw [_process_message, _process_message, hbody]
    rfl
  · rw [_process_message, hbody]
    cases jl ((none : Option String).getD "") with
    | none => exact ⟨ProcessOutcome.raw ((none : Option String).getD ""), rfl⟩
    | some v => exact ⟨ProcessOutcome.parsed v, rfl⟩
  · have hok : env.process m = Except.ok () := by
      rw [hproc]; exact shippedProcess_ok jl m
    simp only [processBatch, hok]
    cases env.deleteRes i j with
    | error e => exact ⟨true, [], rfl⟩
    | ok u =>
      exact ⟨false, (processBatch env i rest (j + 1)).1, rfl⟩

/-- Witness for C10 at `envOk` with the body-less message `msgD`. -/
theorem missing_body_as_empty_string_witness :
    _process_message jl0 msgD = _process_message jl0 { msgD with Body := some "" } ∧
    (∃ out, _process_message jl0 msgD = Except.ok out) ∧
    (∃ (b : Bool) (tail : List Event),
      (processBatch envOk 0 [msgD] 0).1 =
        Event.processCall msgD false :: Event.deleteCall msgD.ReceiptHandle b :: tail) :=
  missing_body_as_empty_string jl0 envOk 0 0 msgD [] rfl rfl

end SqsService
